/-
Verification of the HD44780 character-LCD driver (4-bit GPIO bus, I²C
expander bus, controller mode bookkeeping, and the character-display
cursor layer) against its natural-language specification.

The Lean definitions below are a shallow embedding of the Go source:
  - controller/hd44780/hd44780.go           (buses, controller, mode setters)
  - controller/hd44780/character_display.go (cursor layer)
Bytes are modelled as `Nat` with explicit `% 256` where Go's `byte`
arithmetic wraps; Go `int` is modelled as `Int`; Go `error` results are
modelled by a success flag drawn from an oracle `Nat → Bool` (one entry
per fallible transport write, indexed in call order); a Go runtime panic
(out-of-range slice index, nil-interface method call) is a distinct
`Res.panic` outcome.
-/
import Mathlib

namespace Embd

/-! ## Pin-level model of the 4-bit GPIO bus (`GPIO4BitBus.Write`) -/

/-- The digital lines owned by a `GPIO4BitBus` that `Write` drives. -/
inductive Pin where
  | rs | en | d4 | d5 | d6 | d7
deriving DecidableEq, Repr

/-- A pin-level event: one `DigitalPin.Write` call, pin plus driven value
(`embd.Low` = 0, `embd.High` = 1). -/
structure PinEv where
  pin : Pin
  val : Nat
deriving DecidableEq, Repr

/-- The pin writes attempted by `GPIO4BitBus.pulseEnable`: EN low, high, low. -/
def pulseEnablePinWrites : List PinEv :=
  [⟨Pin.en, 0⟩, ⟨Pin.en, 1⟩, ⟨Pin.en, 0⟩]

/-- The ordered list of pin writes that `GPIO4BitBus.Write rs data` attempts:
RS; D4..D7 with the high nibble (bit k of `data` onto D(k) for k = 4..7);
an enable pulse; D4..D7 with the low nibble (bit k onto D(4+k) for
k = 0..3); a second enable pulse.  Transcribed from the `functions` slice
in `GPIO4BitBus.Write`. -/
def gpio4BitWrites (rs : Bool) (data : Nat) : List PinEv :=
  [⟨Pin.rs, if rs then 1 else 0⟩,
   ⟨Pin.d4, (data >>> 4) &&& 0x01⟩,
   ⟨Pin.d5, (data >>> 5) &&& 0x01⟩,
   ⟨Pin.d6, (data >>> 6) &&& 0x01⟩,
   ⟨Pin.d7, (data >>> 7) &&& 0x01⟩] ++
  pulseEnablePinWrites ++
  [⟨Pin.d4, data &&& 0x01⟩,
   ⟨Pin.d5, (data >>> 1) &&& 0x01⟩,
   ⟨Pin.d6, (data >>> 2) &&& 0x01⟩,
   ⟨Pin.d7, (data >>> 3) &&& 0x01⟩] ++
  pulseEnablePinWrites

/-- Run a list of pin writes against a failure oracle (`o k` is the success
of the k-th write counting from `i`).  Returns the writes attempted (the
failing one included) and whether all succeeded; the first failure aborts
the remainder, as in `GPIO4BitBus.Write` / `pulseEnable`. -/
def runPinWrites (evs : List PinEv) (o : Nat → Bool) (i : Nat) : List PinEv × Bool :=
  match evs with
  | [] => ([], true)
  | e :: rest =>
      if o i then
        let (tl, ok) := runPinWrites rest o (i + 1)
        (e :: tl, ok)
      else ([e], false)

/-- `GPIO4BitBus.Write rs data` with transport failures drawn from `o`. -/
def gpio4BitWriteRun (rs : Bool) (data : Nat) (o : Nat → Bool) : List PinEv × Bool :=
  runPinWrites (gpio4BitWrites rs data) o 0

/-! A logical decoder of the pin trace: it latches the driven RS/D4..D7
values and, on every rising edge of EN (an enable pulse), captures the
register-select value together with the nibble D7::D6::D5::D4. -/

/-- Decoder state: last driven value of each latched line plus captures. -/
structure DecSt where
  rsv : Nat
  b4 : Nat
  b5 : Nat
  b6 : Nat
  b7 : Nat
  env : Nat
  caps : List (Nat × Nat)
deriving DecidableEq, Repr

def decInit : DecSt := ⟨0, 0, 0, 0, 0, 0, []⟩

/-- One decoder step: data/RS writes update the latches; an EN write that
rises 0 → 1 captures (RS, nibble). -/
def decStep (st : DecSt) (e : PinEv) : DecSt :=
  match e.pin with
  | Pin.rs => { st with rsv := e.val }
  | Pin.d4 => { st with b4 := e.val }
  | Pin.d5 => { st with b5 := e.val }
  | Pin.d6 => { st with b6 := e.val }
  | Pin.d7 => { st with b7 := e.val }
  | Pin.en =>
      if st.env = 0 ∧ e.val = 1 then
        { st with env := 1,
                  caps := st.caps ++ [(st.rsv, st.b7 * 8 + st.b6 * 4 + st.b5 * 2 + st.b4)] }
      else { st with env := e.val }

/-- Captures produced by feeding a pin trace to the enable-pulse decoder. -/
def decode (evs : List PinEv) : List (Nat × Nat) :=
  (evs.foldl decStep decInit).caps

/-! ## Controller + character-display model

State of a `CharacterDisplay` wrapping an `HD44780`: the three in-memory
mode bytes of the controller (`eMode`, `dMode`, `fMode` in hd44780.go),
the logical cursor position `p` (`col`, `row`, Go `int`s), and the fixed
geometry (`Cols`, `Rows`). -/

structure DispState where
  eMode : Nat
  dMode : Nat
  fMode : Nat
  col : Int
  row : Int
  cols : Int
  rows : Int
deriving DecidableEq, Repr

/-- Controller-level transport events: `WriteInstruction b` (register
select off) and `WriteChar b` (register select on).  A char event also
records the logical cursor position the display layer held when it issued
the write, so traces can speak about where a character was written. -/
inductive Ev where
  | ins (b : Nat)
  | chr (col row : Int) (b : Nat)
deriving DecidableEq, Repr

/-- Outcome of an operation: returned without error, returned a (transport)
error, or crashed with a Go runtime panic. -/
inductive Res where
  | ok
  | err
  | panic
deriving DecidableEq, Repr

/-- Result of running a display/controller operation: the state afterwards,
the transport events emitted (in order, failed attempts included), the
next oracle index, and the outcome. -/
structure Out where
  s : DispState
  evs : List Ev
  idx : Nat
  res : Res
deriving DecidableEq, Repr

/-- `New` in hd44780.go initializes all three mode bytes to `0x00`. -/
def initModes (cols rows : Int) : DispState :=
  ⟨0x00, 0x00, 0x00, 0, 0, cols, rows⟩

/-- The identifiable mode-setter functions exported by hd44780.go. -/
inductive MS where
  | entryDecrement | entryIncrement | entryShiftOff | entryShiftOn
  | displayOff | displayOn | cursorOff | cursorOn | blinkOff | blinkOn
  | fourBitMode | eightBitMode | oneLine | twoLine | dots5x8 | dots5x10
deriving DecidableEq, Repr

/-- Go's `^flag` on a byte complements within 8 bits: `x &= ^m` clears m. -/
def bclr (x m : Nat) : Nat := x &&& (0xFF ^^^ m)

/-- Apply one mode setter to the in-memory mode bytes (pure state change;
no hardware instruction is emitted).  Each case transcribes the
corresponding one-line setter in hd44780.go. -/
def applySetter (s : DispState) (m : MS) : DispState :=
  match m with
  | MS.entryDecrement => { s with eMode := bclr s.eMode 0x02 }
  | MS.entryIncrement => { s with eMode := s.eMode ||| 0x02 }
  | MS.entryShiftOff  => { s with eMode := bclr s.eMode 0x01 }
  | MS.entryShiftOn   => { s with eMode := s.eMode ||| 0x01 }
  | MS.displayOff     => { s with dMode := bclr s.dMode 0x04 }
  | MS.displayOn      => { s with dMode := s.dMode ||| 0x04 }
  | MS.cursorOff      => { s with dMode := bclr s.dMode 0x02 }
  | MS.cursorOn       => { s with dMode := s.dMode ||| 0x02 }
  | MS.blinkOff       => { s with dMode := bclr s.dMode 0x01 }
  | MS.blinkOn        => { s with dMode := s.dMode ||| 0x01 }
  | MS.fourBitMode    => { s with fMode := bclr s.fMode 0x10 }
  | MS.eightBitMode   => { s with fMode := s.fMode ||| 0x10 }
  | MS.oneLine        => { s with fMode := bclr s.fMode 0x08 }
  | MS.twoLine        => { s with fMode := s.fMode ||| 0x08 }
  | MS.dots5x8        => { s with fMode := bclr s.fMode 0x04 }
  | MS.dots5x10       => { s with fMode := s.fMode ||| 0x04 }

def applySetters (s : DispState) (ms : List MS) : DispState :=
  ms.foldl applySetter s

/-- One fallible bus write at controller level: record the attempted event,
consume one oracle entry for success. -/
def emit (e : Ev) (o : Nat → Bool) (i : Nat) : Ev × Nat × Bool :=
  (e, i + 1, o i)

/-- `HD44780.SetMode`: apply every setter to the in-memory mode bytes,
then flush entry, display and function mode as three instructions
(`lcdSetEntryMode = 0x04`, `lcdSetDisplayMode = 0x08`,
`lcdSetFunctionMode = 0x20` OR'd with the stored byte), stopping at the
first write error. -/
def setModeRun (ms : List MS) (s : DispState) (o : Nat → Bool) (i : Nat) : Out :=
  let s := applySetters s ms
  let (e1, i, ok1) := emit (Ev.ins (0x04 ||| s.eMode)) o i
  if !ok1 then ⟨s, [e1], i, Res.err⟩ else
  let (e2, i, ok2) := emit (Ev.ins (0x08 ||| s.dMode)) o i
  if !ok2 then ⟨s, [e1, e2], i, Res.err⟩ else
  let (e3, i, ok3) := emit (Ev.ins (0x20 ||| s.fMode)) o i
  ⟨s, [e1, e2, e3], i, if ok3 then Res.ok else Res.err⟩

/-- Go's `byte(col)` conversion from `int`: truncation to 8 bits, i.e. the
mathematical value mod 256. -/
def byteOfInt (n : Int) : Nat := (n % 256).toNat

/-- `CharacterDisplay.isLeftToRight`:
`disp.HD44780.eMode>>1&0x01 != disp.HD44780.eMode&0x01`. -/
def isLeftToRight (s : DispState) : Bool :=
  ((s.eMode >>> 1) &&& 0x01) != (s.eMode &&& 0x01)

/-- `CharacterDisplay.lcdRowOffset`: row clamped above at 3, then a
4-entry table indexed by row — `{0x00,0x40,0x10,0x50}` when `Cols` is 16,
`{0x00,0x40,0x14,0x54}` otherwise.  A negative row reaches the slice
index expression unclamped and panics in Go (index out of range), which
is modelled as `none`. -/
def lcdRowOffset (cols : Int) (row : Int) : Option Nat :=
  let r := if row > 3 then 3 else row
  if r < 0 then none
  else if cols = 16 then some ([0x00, 0x40, 0x10, 0x50].getD r.toNat 0)
  else some ([0x00, 0x40, 0x14, 0x54].getD r.toNat 0)

/-- `CharacterDisplay.SetCursor col row`: rows at or past `Rows` are
clamped to `Rows - 1`; the logical position is updated; then the
controller emits the set-DDRAM-address instruction
`lcdSetDDRamAddr (0x80) | (byte(col) + lcdRowOffset(row))` (byte
addition, mod 256).  A negative effective row panics inside
`lcdRowOffset` after the position update, emitting nothing. -/
def setCursorRun (c r : Int) (s : DispState) (o : Nat → Bool) (i : Nat) : Out :=
  let r := if r ≥ s.rows then s.rows - 1 else r
  let s := { s with col := c, row := r }
  match lcdRowOffset s.cols r with
  | none => ⟨s, [], i, Res.panic⟩
  | some off =>
      let (e, i, ok) := emit (Ev.ins (0x80 ||| ((byteOfInt c + off) % 256))) o i
      ⟨s, [e], i, if ok then Res.ok else Res.err⟩

/-- `CharacterDisplay.Home`: reset the logical cursor to (0,0), then emit
the return-home instruction `lcdReturnHome = 0x02`. -/
def homeRun (s : DispState) (o : Nat → Bool) (i : Nat) : Out :=
  let s := { s with col := 0, row := 0 }
  let (e, i, ok) := emit (Ev.ins 0x02) o i
  ⟨s, [e], i, if ok then Res.ok else Res.err⟩

/-- `CharacterDisplay.Clear`: reset the logical cursor to (0,0); emit the
clear-display instruction `lcdClearDisplay = 0x01`; re-flush the three
stored mode bytes via `SetMode()` with no setters; then, when the entry
mode reads right-to-left, `SetCursor(Cols-1, 0)`.  Each failing step
returns its error at once. -/
def clearRun (s : DispState) (o : Nat → Bool) (i : Nat) : Out :=
  let s := { s with col := 0, row := 0 }
  let (e, i, ok) := emit (Ev.ins 0x01) o i
  if !ok then ⟨s, [e], i, Res.err⟩ else
  let m := setModeRun [] s o i
  match m.res with
  | Res.ok =>
      if !(isLeftToRight m.s) then
        let sc := setCursorRun (m.s.cols - 1) 0 m.s o m.idx
        ⟨sc.s, e :: m.evs ++ sc.evs, sc.idx, sc.res⟩
      else ⟨m.s, e :: m.evs, m.idx, Res.ok⟩
  | r => ⟨m.s, e :: m.evs, m.idx, r⟩

/-- `CharacterDisplay.Newline`: `SetCursor(col, row+1)` with column 0 in
left-to-right mode and `Cols - 1` in right-to-left mode. -/
def newlineRun (s : DispState) (o : Nat → Bool) (i : Nat) : Out :=
  setCursorRun (if isLeftToRight s then 0 else s.cols - 1) (s.row + 1) s o i

/-- `CharacterDisplay.Message`: per input byte, a newline byte (10)
triggers `Newline` and is never written; any other byte is written via
`WriteChar`, the column then advances (+1 left-to-right, -1
right-to-left), and a column at or past `Cols`, or below 0, triggers
`Newline`.  Any error or panic aborts the rest of the message. -/
def messageRun (bs : List Nat) (s : DispState) (o : Nat → Bool) (i : Nat) : Out :=
  match bs with
  | [] => ⟨s, [], i, Res.ok⟩
  | b :: rest =>
      if b = 10 then
        let n := newlineRun s o i
        match n.res with
        | Res.ok =>
            let m := messageRun rest n.s o n.idx
            ⟨m.s, n.evs ++ m.evs, m.idx, m.res⟩
        | r => ⟨n.s, n.evs, n.idx, r⟩
      else
        let (e, i, ok) := emit (Ev.chr s.col s.row b) o i
        if !ok then ⟨s, [e], i, Res.err⟩ else
        let s := { s with col := if isLeftToRight s then s.col + 1 else s.col - 1 }
        if s.col ≥ s.cols ∨ s.col < 0 then
          let n := newlineRun s o i
          match n.res with
          | Res.ok =>
              let m := messageRun rest n.s o n.idx
              ⟨m.s, e :: (n.evs ++ m.evs), m.idx, m.res⟩
          | r => ⟨n.s, e :: n.evs, n.idx, r⟩
        else
          let m := messageRun rest s o i
          ⟨m.s, e :: m.evs, m.idx, m.res⟩

/-! ## Close (`CharacterDisplay.Close` in controller/hd44780) -/

/-- Resource-release events of `CharacterDisplay.Close`. -/
inductive CloseEv where
  | bus
  | backlight
deriving DecidableEq, Repr

/-- The `Backlight` field of the `CharacterDisplay` struct as
`NewCharacterDisplay` leaves it: the constructor builds
`&CharacterDisplay{HD44780: controller, Cols: cols, Rows: rows, p: ...}`
and never assigns `Backlight`, so it holds Go's nil interface value,
modelled as `none`. -/
def newDisplayBacklight : Option Unit := none

/-- `CharacterDisplay.Close`: close the controller (its bus); on success
call `disp.Backlight.Close()` unconditionally — with a nil `Backlight`
interface that call is a nil-pointer dereference, a runtime panic. -/
def cdCloseRun (backlight : Option Unit) (busOk blOk : Bool) : List CloseEv × Res :=
  if !busOk then ([CloseEv.bus], Res.err)
  else match backlight with
    | none => ([CloseEv.bus], Res.panic)
    | some _ => ([CloseEv.bus, CloseEv.backlight], if blOk then Res.ok else Res.err)

/-! ## Operation sequences over the display (for the row invariant) -/

/-- The cursor-affecting display operations. -/
inductive DispOp where
  | home
  | clear
  | newline
  | setCursor (c r : Int)
  | message (bs : List Nat)

/-- Run one display operation. -/
def runOp (op : DispOp) (s : DispState) (o : Nat → Bool) (i : Nat) : Out :=
  match op with
  | DispOp.home => homeRun s o i
  | DispOp.clear => clearRun s o i
  | DispOp.newline => newlineRun s o i
  | DispOp.setCursor c r => setCursorRun c r s o i
  | DispOp.message bs => messageRun bs s o i

/-- Run a sequence of display operations, keeping the state and oracle
position across operations (a caller may keep issuing operations after an
error). -/
def runOps (ops : List DispOp) (s : DispState) (o : Nat → Bool) (i : Nat) :
    DispState × Nat :=
  match ops with
  | [] => (s, i)
  | op :: rest =>
      let r := runOp op s o i
      runOps rest r.s o r.idx

/-- An operation's explicit row argument is non-negative (only
`setCursor` takes one). -/
def rowArgOk (op : DispOp) : Prop :=
  match op with
  | DispOp.setCursor _ r => 0 ≤ r
  | _ => True

/-! ## I²C expander bus (`I2CBus.Write`) -/

/-- Expander bit positions for the logical signals (`I2CPinMap`). -/
structure I2CPinMap where
  RS : Nat
  RW : Nat
  EN : Nat
  D4 : Nat
  D5 : Nat
  D6 : Nat
  D7 : Nat
  Backlight : Nat
deriving DecidableEq, Repr

def MJKDZPinMap : I2CPinMap :=
  { RS := 6, RW := 5, EN := 4, D4 := 0, D5 := 1, D6 := 2, D7 := 3, Backlight := 7 }

def PCF8574PinMap : I2CPinMap :=
  { RS := 0, RW := 1, EN := 2, D4 := 4, D5 := 5, D6 := 6, D7 := 7, Backlight := 3 }

/-- The fixed I²C device address every byte is written to. -/
def i2cAddr : Nat := 0x00

/-- Go byte left-shift: the result wraps to 8 bits. -/
def shl8 (x k : Nat) : Nat := (x <<< k) % 256

/-- `instructionHigh` in `I2CBus.Write`: each high-nibble data bit shifted
to its mapped expander bit position, OR'd together. -/
def instructionHigh (pm : I2CPinMap) (data : Nat) : Nat :=
  shl8 ((data >>> 4) &&& 0x01) pm.D4 |||
  shl8 ((data >>> 5) &&& 0x01) pm.D5 |||
  shl8 ((data >>> 6) &&& 0x01) pm.D6 |||
  shl8 ((data >>> 7) &&& 0x01) pm.D7

/-- `instructionLow` in `I2CBus.Write`: the low-nibble data bits. -/
def instructionLow (pm : I2CPinMap) (data : Nat) : Nat :=
  shl8 (data &&& 0x01) pm.D4 |||
  shl8 ((data >>> 1) &&& 0x01) pm.D5 |||
  shl8 ((data >>> 2) &&& 0x01) pm.D6 |||
  shl8 ((data >>> 3) &&& 0x01) pm.D7

/-- The per-instruction RS / backlight OR-ins done inside the loop of
`I2CBus.Write` (`ins |= 0x01 << RS` when rs, `ins |= 0x01 << Backlight`
when the stored backlight state is on). -/
def i2cIns (pm : I2CPinMap) (bl rs : Bool) (ins : Nat) : Nat :=
  let ins := if rs then ins ||| shl8 0x01 pm.RS else ins
  if bl then ins ||| shl8 0x01 pm.Backlight else ins

/-- `I2CBus.pulseEnable data` writes `data`, `data | (0x01 << EN)`,
`data` in order. -/
def i2cPulseBytes (pm : I2CPinMap) (d : Nat) : List Nat :=
  [d, d ||| shl8 0x01 pm.EN, d]

/-- Issue a list of single-byte I²C writes to `i2cAddr`, aborting after
the first failure (the failing attempt is recorded); returns the
(address, value) writes attempted, the next oracle index, and success. -/
def runI2CWrites (vals : List Nat) (o : Nat → Bool) (i : Nat) :
    List (Nat × Nat) × Nat × Bool :=
  match vals with
  | [] => ([], i, true)
  | v :: rest =>
      if o i then
        let (tl, i', ok) := runI2CWrites rest o (i + 1)
        ((i2cAddr, v) :: tl, i', ok)
      else ([(i2cAddr, v)], i + 1, false)

/-- `I2CBus.Write rs data` with stored backlight state `bl`: pulse the
high-nibble byte, then (unless that failed) the low-nibble byte. -/
def i2cWriteRun (pm : I2CPinMap) (bl rs : Bool) (data : Nat) (o : Nat → Bool) :
    List (Nat × Nat) × Bool :=
  let hi := i2cIns pm bl rs (instructionHigh pm data)
  let lo := i2cIns pm bl rs (instructionLow pm data)
  let (evs1, i1, ok1) := runI2CWrites (i2cPulseBytes pm hi) o 0
  if !ok1 then (evs1, false) else
  let (evs2, _, ok2) := runI2CWrites (i2cPulseBytes pm lo) o i1
  (evs1 ++ evs2, ok2)

/-- The six writes `I2CBus.Write` performs when nothing fails. -/
def i2cExpected (pm : I2CPinMap) (bl rs : Bool) (data : Nat) : List (Nat × Nat) :=
  (i2cPulseBytes pm (i2cIns pm bl rs (instructionHigh pm data))).map (fun v => (i2cAddr, v)) ++
  (i2cPulseBytes pm (i2cIns pm bl rs (instructionLow pm data))).map (fun v => (i2cAddr, v))

/-! ## Helper lemmas -/

theorem runPinWrites_allOk (evs : List PinEv) (o : Nat → Bool) (i : Nat)
    (ho : ∀ k, o k = true) : runPinWrites evs o i = (evs, true) := by
  induction evs generalizing i with
  | nil => rfl
  | cons e rest ih => simp [runPinWrites, ho, ih]

theorem byteOfInt_lt (n : Int) : byteOfInt n < 256 := by
  unfold byteOfInt
  omega

theorem setModeRun_allOk (ms : List MS) (s : DispState) (o : Nat → Bool) (i : Nat)
    (h0 : o i = true) (h1 : o (i + 1) = true) (h2 : o (i + 2) = true) :
    setModeRun ms s o i =
      ⟨applySetters s ms,
       [Ev.ins (0x04 ||| (applySetters s ms).eMode),
        Ev.ins (0x08 ||| (applySetters s ms).dMode),
        Ev.ins (0x20 ||| (applySetters s ms).fMode)],
       i + 3, Res.ok⟩ := by
  simp [setModeRun, emit, h0, h1, h2]

theorem setModeRun_state (ms : List MS) (s : DispState) (o : Nat → Bool) (i : Nat) :
    (setModeRun ms s o i).s = applySetters s ms := by
  cases h0 : o i <;> cases h1 : o (i + 1) <;> cases h2 : o (i + 2) <;>
    simp [setModeRun, emit, h0, h1, h2]

/-- `lcdRowOffset` succeeds on every non-negative row and yields the value
of the appropriate row-offset table (rows above 3 index entry 3). -/
theorem lcdRowOffset_eq_some (cols row : Int) (h : 0 ≤ row) :
    lcdRowOffset cols row =
      some ((if cols = 16 then [0x00, 0x40, 0x10, 0x50] else [0x00, 0x40, 0x14, 0x54]).getD
              (if row > 3 then 3 else row).toNat 0) := by
  unfold lcdRowOffset
  have hnn : ¬ (if row > 3 then (3 : Int) else row) < 0 := by split <;> omega
  by_cases hc : cols = 16 <;> simp [hnn, hc]

theorem setCursorRun_state (c r : Int) (s : DispState) (o : Nat → Bool) (i : Nat) :
    (setCursorRun c r s o i).s =
      { s with col := c, row := if r ≥ s.rows then s.rows - 1 else r } := by
  unfold setCursorRun
  cases h : lcdRowOffset s.cols (if r ≥ s.rows then s.rows - 1 else r) <;> simp [h, emit]

theorem lcdRowOffset_zero (cols : Int) : lcdRowOffset cols 0 = some 0 := by
  unfold lcdRowOffset
  by_cases hc : cols = 16 <;> simp [hc]

/-- `isLeftToRight` only reads the entry-mode byte, so cursor moves do
not change it. -/
theorem isLeftToRight_set_pos (s : DispState) (c r : Int) :
    isLeftToRight { s with col := c, row := r } = isLeftToRight s := rfl

theorem setCursorRun_row_zero (c : Int) (s : DispState) (o : Nat → Bool) (i : Nat)
    (hrows : 1 ≤ s.rows) (hok : o i = true) :
    setCursorRun c 0 s o i =
      ⟨{ s with col := c, row := 0 }, [Ev.ins (0x80 ||| byteOfInt c)], i + 1, Res.ok⟩ := by
  unfold setCursorRun
  have h0 : ¬ ((0 : Int) ≥ s.rows) := by omega
  simp [h0, lcdRowOffset_zero, emit, hok, Nat.mod_eq_of_lt (byteOfInt_lt c)]

/-- `setCursorRun` only ever emits instruction events, never characters. -/
theorem setCursorRun_no_chr (c r : Int) (s : DispState) (o : Nat → Bool) (i : Nat)
    (cc rr : Int) (b : Nat) : Ev.chr cc rr b ∉ (setCursorRun c r s o i).evs := by
  unfold setCursorRun
  cases h : lcdRowOffset s.cols (if r ≥ s.rows then s.rows - 1 else r) <;> simp [h, emit]

/-- `newlineRun` only ever emits instruction events, never characters. -/
theorem newlineRun_no_chr (s : DispState) (o : Nat → Bool) (i : Nat)
    (cc rr : Int) (b : Nat) : Ev.chr cc rr b ∉ (newlineRun s o i).evs :=
  setCursorRun_no_chr _ _ s o i cc rr b

/-- A newline byte (10) is never written to the controller as a
character by `Message`. -/
theorem messageRun_no_newline_char (bs : List Nat) :
    ∀ (s : DispState) (o : Nat → Bool) (i : Nat) (cc rr : Int),
      Ev.chr cc rr 10 ∉ (messageRun bs s o i).evs := by
  induction bs with
  | nil => intro s o i cc rr; simp [messageRun]
  | cons b rest ih =>
    intro s o i cc rr
    unfold messageRun
    by_cases hb : b = 10
    · subst hb
      cases hres : (newlineRun s o i).res <;> simp only [if_pos rfl, hres] <;>
        simp [List.mem_append, newlineRun_no_chr, ih]
    · have hb' : ¬ 10 = b := fun h => hb h.symm
      simp only [if_neg hb, emit]
      cases hok : o i
      · simp [hb, hb']
      · by_cases hc :
            ({ s with col := if isLeftToRight s then s.col + 1 else s.col - 1 } : DispState).col
              ≥ s.cols ∨
            ({ s with col := if isLeftToRight s then s.col + 1 else s.col - 1 } : DispState).col
              < 0
        · cases hres : (newlineRun
              { s with col := if isLeftToRight s then s.col + 1 else s.col - 1 } o (i + 1)).res <;>
            simp [hc, hres, List.mem_append, newlineRun_no_chr, ih, hb, hb']
        · simp [hc, ih, hb, hb']

/-! ## C1: the 4-bit bus write sequence and its enable-pulse decoding -/

/-- C1: for every byte `data` and register-select flag `rs`,
`GPIO4BitBus.Write` performs exactly the sequence RS; D4..D7 ← high
nibble (bit 4 onto D4 … bit 7 onto D7); EN pulse low–high–low; D4..D7 ←
low nibble (bit 0 onto D4 … bit 3 onto D7); EN pulse again — and the
enable-pulse decoder latching D4–D7 and RS captures exactly the two
nibble halves, high first, which recombine to `data` with the given
register select. -/
theorem gpio4BitWrite_decodes_both_nibbles (rs : Bool) (data : Nat) (hd : data < 256)
    (o : Nat → Bool) (ho : ∀ k, o k = true) :
    gpio4BitWriteRun rs data o = (gpio4BitWrites rs data, true) ∧
    decode (gpio4BitWrites rs data)
      = [((if rs then 1 else 0), data >>> 4),
         ((if rs then 1 else 0), data &&& 0x0F)] ∧
    (data >>> 4) * 16 + (data &&& 0x0F) = data := by
  refine ⟨runPinWrites_allOk _ _ _ ho, ?_, ?_⟩
  · simp only [decode, gpio4BitWrites, pulseEnablePinWrites, List.cons_append,
      List.nil_append, List.foldl, decStep, decInit]
    norm_num
    constructor
    · simp only [Nat.shiftRight_eq_div_pow, Nat.and_one_is_mod]
      omega
    · have h15 : data &&& 15 = data % 16 := by
        have h := Nat.and_pow_two_sub_one_eq_mod data 4
        norm_num at h
        exact h
      simp only [Nat.shiftRight_eq_div_pow, Nat.and_one_is_mod, h15]
      omega
  · have h15 : data &&& 15 = data % 16 := by
      have h := Nat.and_pow_two_sub_one_eq_mod data 4
      norm_num at h
      exact h
    simp only [Nat.shiftRight_eq_div_pow, h15]
    omega

/-- C1 witness: writing `0xAB` with register select on. -/
theorem gpio4BitWrite_decodes_both_nibbles_witness :
    gpio4BitWriteRun true 0xAB (fun _ => true) = (gpio4BitWrites true 0xAB, true) ∧
    decode (gpio4BitWrites true 0xAB)
      = [((if true then 1 else 0), 0xAB >>> 4),
         ((if true then 1 else 0), 0xAB &&& 0x0F)] ∧
    (0xAB >>> 4) * 16 + (0xAB &&& 0x0F) = 0xAB :=
  gpio4BitWrite_decodes_both_nibbles true 0xAB (by decide) (fun _ => true) (fun _ => rfl)

/-! ## C4: `isLeftToRight` versus the entry-mode bits -/

/-- C4 as stated is false: at entry mode byte `0x00` (increment bit
clear, shift bit clear) the claimed XOR is false, so the claim predicts
left-to-right, but `isLeftToRight` returns `false` there (the code reads
left-to-right exactly when the XOR is *true*). -/
theorem isLeftToRight_xor_false_counterexample :
    ¬ (isLeftToRight (initModes 16 2) = true ↔
        (((initModes 16 2).eMode &&& 0x02 != 0) ^^
         ((initModes 16 2).eMode &&& 0x01 != 0)) = false) := by
  decide

set_option maxRecDepth 4096 in
/-- C4 amended: `isLeftToRight()` is true exactly when
(entry-increment-bit set) XOR (entry-shift-on-bit set) is *true* — the
increment+shift-off and decrement+shift-on combinations read as
left-to-right, and the other two combinations read as right-to-left. -/
theorem isLeftToRight_iff_xor (s : DispState) (h : s.eMode < 256) :
    isLeftToRight s = ((s.eMode &&& 0x02 != 0) ^^ (s.eMode &&& 0x01 != 0)) := by
  have aux : ∀ e : Nat, e < 256 →
      ((((e >>> 1) &&& 0x01) != (e &&& 0x01)) : Bool)
        = ((e &&& 0x02 != 0) ^^ (e &&& 0x01 != 0)) := by decide
  exact aux s.eMode h

/-- C4 witness: entry mode `0x02` (increment, shift off) reads
left-to-right. -/
theorem isLeftToRight_iff_xor_witness :
    isLeftToRight ⟨0x02, 0, 0, 0, 0, 16, 2⟩
      = (((0x02 : Nat) &&& 0x02 != 0) ^^ ((0x02 : Nat) &&& 0x01 != 0)) :=
  isLeftToRight_iff_xor ⟨0x02, 0, 0, 0, 0, 16, 2⟩ (by decide)

/-! ## C9: `CharacterDisplay.Close` with no backlight bus -/

/-- C9 names a code bug: `NewCharacterDisplay` never assigns the
`Backlight` field, and `Close` calls `disp.Backlight.Close()` with no nil
check after closing the bus, so closing a display constructed without a
backlight bus panics (nil-interface call) instead of succeeding as the
spec requires. -/
theorem close_nil_backlight_panics :
    cdCloseRun newDisplayBacklight true true = ([CloseEv.bus], Res.panic) := by
  decide

/-! ## C5: `HD44780.SetMode` mutation, flush order, and fail-fast -/

/-- C5: `SetMode` applies every setter to the in-memory mode bytes first
(the mutations persist for every oracle, including failing ones — no
rollback), then flushes entry, display and function mode, in that order,
each OR'd with its fixed mode-instruction flag (`0x04`, `0x08`, `0x20`);
the first transport error skips the remaining flushes and returns the
error; a retried flush sends the already-mutated values. -/
theorem setMode_flush_order_and_no_rollback (ms : List MS) (s : DispState)
    (o : Nat → Bool) :
    (setModeRun ms s o 0).s = applySetters s ms ∧
    ((∀ k, k < 3 → o k = true) →
      setModeRun ms s o 0 =
        ⟨applySetters s ms,
         [Ev.ins (0x04 ||| (applySetters s ms).eMode),
          Ev.ins (0x08 ||| (applySetters s ms).dMode),
          Ev.ins (0x20 ||| (applySetters s ms).fMode)], 3, Res.ok⟩) ∧
    (∀ k, k < 3 → o k = false → (∀ j, j < k → o j = true) →
      (setModeRun ms s o 0).evs =
        ([Ev.ins (0x04 ||| (applySetters s ms).eMode),
          Ev.ins (0x08 ||| (applySetters s ms).dMode),
          Ev.ins (0x20 ||| (applySetters s ms).fMode)].take (k + 1)) ∧
      (setModeRun ms s o 0).res = Res.err) ∧
    (∀ o' : Nat → Bool, (∀ k, k < 3 → o' k = true) →
      (setModeRun [] (setModeRun ms s o 0).s o' 0).evs =
        [Ev.ins (0x04 ||| (applySetters s ms).eMode),
         Ev.ins (0x08 ||| (applySetters s ms).dMode),
         Ev.ins (0x20 ||| (applySetters s ms).fMode)]) := by
  refine ⟨setModeRun_state ms s o 0, ?_, ?_, ?_⟩
  · intro ho
    exact setModeRun_allOk ms s o 0 (ho 0 (by omega)) (ho 1 (by omega)) (ho 2 (by omega))
  · intro k hk hko hj
    interval_cases k
    · simp [setModeRun, emit, hko]
    · have h0 := hj 0 (by omega)
      simp [setModeRun, emit, h0, hko]
    · have h0 := hj 0 (by omega)
      have h1 := hj 1 (by omega)
      simp [setModeRun, emit, h0, h1, hko]
  · intro o' ho'
    rw [setModeRun_state]
    rw [setModeRun_allOk [] (applySetters s ms) o' 0
      (ho' 0 (by omega)) (ho' 1 (by omega)) (ho' 2 (by omega))]
    simp [applySetters]

/-- C5 witness: entry-increment plus display-on against an all-ok
transport. -/
theorem setMode_flush_order_and_no_rollback_witness :
    setModeRun [MS.entryIncrement, MS.displayOn] (initModes 16 2) (fun _ => true) 0 =
      ⟨applySetters (initModes 16 2) [MS.entryIncrement, MS.displayOn],
       [Ev.ins (0x04 ||| (applySetters (initModes 16 2) [MS.entryIncrement, MS.displayOn]).eMode),
        Ev.ins (0x08 ||| (applySetters (initModes 16 2) [MS.entryIncrement, MS.displayOn]).dMode),
        Ev.ins (0x20 ||| (applySetters (initModes 16 2) [MS.entryIncrement, MS.displayOn]).fMode)],
       3, Res.ok⟩ :=
  (setMode_flush_order_and_no_rollback [MS.entryIncrement, MS.displayOn]
    (initModes 16 2) (fun _ => true)).2.1 (fun _ _ => rfl)

/-! ## C6: `I2CBus.Write` byte construction and pulse sequence -/

/-- C6: `I2CBus.Write` builds the high and the low byte by OR-ing each
data bit shifted to its mapped expander position (`instructionHigh`,
`instructionLow`), OR's in the RS bit and the stored-backlight bit into
each of the two bytes (`i2cIns`), and for each byte writes `byte`,
`byte OR (1 << EN)`, `byte` — six single-byte I²C writes, all to the
fixed device address 0x00; the first failing write aborts the remaining
sequence. -/
theorem i2cWrite_pulse_sequence (pm : I2CPinMap) (bl rs : Bool) (data : Nat)
    (o : Nat → Bool) :
    ((∀ k, k < 6 → o k = true) →
      i2cWriteRun pm bl rs data o = (i2cExpected pm bl rs data, true)) ∧
    (∀ k, k < 6 → o k = false → (∀ j, j < k → o j = true) →
      i2cWriteRun pm bl rs data o
        = ((i2cExpected pm bl rs data).take (k + 1), false)) := by
  constructor
  · intro ho
    have h0 := ho 0 (by omega); have h1 := ho 1 (by omega); have h2 := ho 2 (by omega)
    have h3 := ho 3 (by omega); have h4 := ho 4 (by omega); have h5 := ho 5 (by omega)
    simp [i2cWriteRun, runI2CWrites, i2cPulseBytes, i2cExpected,
      h0, h1, h2, h3, h4, h5]
  · intro k hk hko hj
    interval_cases k
    · simp [i2cWriteRun, runI2CWrites, i2cPulseBytes, i2cExpected, hko]
    · have h0 := hj 0 (by omega)
      simp [i2cWriteRun, runI2CWrites, i2cPulseBytes, i2cExpected, h0, hko]
    · have h0 := hj 0 (by omega); have h1 := hj 1 (by omega)
      simp [i2cWriteRun, runI2CWrites, i2cPulseBytes, i2cExpected, h0, h1, hko]
    · have h0 := hj 0 (by omega); have h1 := hj 1 (by omega); have h2 := hj 2 (by omega)
      simp [i2cWriteRun, runI2CWrites, i2cPulseBytes, i2cExpected, h0, h1, h2, hko]
    · have h0 := hj 0 (by omega); have h1 := hj 1 (by omega); have h2 := hj 2 (by omega)
      have h3 := hj 3 (by omega)
      simp [i2cWriteRun, runI2CWrites, i2cPulseBytes, i2cExpected, h0, h1, h2, h3, hko]
    · have h0 := hj 0 (by omega); have h1 := hj 1 (by omega); have h2 := hj 2 (by omega)
      have h3 := hj 3 (by omega); have h4 := hj 4 (by omega)
      simp [i2cWriteRun, runI2CWrites, i2cPulseBytes, i2cExpected, h0, h1, h2, h3, h4, hko]

/-- C6 witness: byte `0xAB`, register select on, PCF8574 wiring, all
writes succeeding. -/
theorem i2cWrite_pulse_sequence_witness :
    i2cWriteRun PCF8574PinMap false true 0xAB (fun _ => true)
      = (i2cExpected PCF8574PinMap false true 0xAB, true) :=
  (i2cWrite_pulse_sequence PCF8574PinMap false true 0xAB (fun _ => true)).1
    (fun _ _ => rfl)

/-! ## C2: `CharacterDisplay.Clear` -/

/-- C2: a successful `Clear` resets the logical cursor to (0,0), emits
the controller clear instruction (`0x01`), re-flushes the three stored
mode bytes (entry `0x04|eMode`, display `0x08|dMode`, function
`0x20|fMode`), and, when the entry mode reads right-to-left, repositions
the cursor to column `Cols-1`, row 0 (emitting the matching set-DDRAM
instruction) before any subsequent character is written. -/
theorem clear_resets_cursor_and_reflushes_modes (s : DispState) (o : Nat → Bool)
    (ho : ∀ k, o k = true) (hrows : 1 ≤ s.rows) :
    (isLeftToRight s = true →
      clearRun s o 0 =
        ⟨{ s with col := 0, row := 0 },
         [Ev.ins 0x01, Ev.ins (0x04 ||| s.eMode), Ev.ins (0x08 ||| s.dMode),
          Ev.ins (0x20 ||| s.fMode)], 4, Res.ok⟩) ∧
    (isLeftToRight s = false →
      clearRun s o 0 =
        ⟨{ s with col := s.cols - 1, row := 0 },
         [Ev.ins 0x01, Ev.ins (0x04 ||| s.eMode), Ev.ins (0x08 ||| s.dMode),
          Ev.ins (0x20 ||| s.fMode), Ev.ins (0x80 ||| byteOfInt (s.cols - 1))],
         5, Res.ok⟩) := by
  have h0 : o 0 = true := ho 0
  have hm := setModeRun_allOk [] { s with col := 0, row := 0 } o 1 (ho 1) (ho 2) (ho 3)
  have hsc := setCursorRun_row_zero (s.cols - 1) { s with col := 0, row := 0 } o 4
    (by simpa using hrows) (ho 4)
  constructor
  · intro hltr
    simp [clearRun, emit, h0, hm, applySetters, isLeftToRight_set_pos, hltr]
  · intro hltr
    simp [clearRun, emit, h0, hm, applySetters, isLeftToRight_set_pos, hltr, hsc]

/-- C2 witness: a right-to-left 16×2 display (entry mode `0x03`:
increment with shift on). -/
theorem clear_resets_cursor_and_reflushes_modes_witness :
    clearRun ⟨0x03, 0x04, 0x08, 5, 1, 16, 2⟩ (fun _ => true) 0 =
      ⟨⟨0x03, 0x04, 0x08, 15, 0, 16, 2⟩,
       [Ev.ins 0x01, Ev.ins 0x07, Ev.ins 0x0C, Ev.ins 0x28, Ev.ins 0x8F],
       5, Res.ok⟩ := by
  have h := (clear_resets_cursor_and_reflushes_modes ⟨0x03, 0x04, 0x08, 5, 1, 16, 2⟩
    (fun _ => true) (fun _ => rfl) (by decide)).2 (by decide)
  simpa [byteOfInt] using h

/-! ## C7: `CharacterDisplay.SetCursor` row clamping and addressing -/

/-- C7 fails as stated: with 4 rows, `SetCursor(0, -1)` does not clamp
the (out-of-range) negative row — the row survives the `row >= Rows`
check, the logical position is set to row -1, and `lcdRowOffset` then
indexes its offset slice at -1, a Go runtime panic; no set-DDRAM
instruction is emitted. -/
theorem setCursor_negative_row_panics :
    setCursorRun 0 (-1) ⟨0, 0, 0, 0, 0, 20, 4⟩ (fun _ => true) 0
      = ⟨⟨0, 0, 0, 0, -1, 20, 4⟩, [], 0, Res.panic⟩ := by
  decide

/-- C7 amended: for every column and every *non-negative* row (on a
display with at least one row), `SetCursor` clamps rows at or past `Rows`
to `Rows-1` without error, updates the logical position, and emits the
set-DDRAM-address instruction for `(byte(col) + rowOffset(row)) mod 256`,
where the row-offset table is {0,64,16,80} when the column count is 16
and {0,64,20,84} otherwise, rows above 3 indexing entry 3; negative rows
instead panic unclamped in `lcdRowOffset`. -/
theorem setCursor_clamps_row_and_addresses (c r : Int) (s : DispState) (o : Nat → Bool)
    (hr : 0 ≤ r) (hrows : 1 ≤ s.rows) :
    setCursorRun c r s o 0 =
      ⟨{ s with col := c, row := if r ≥ s.rows then s.rows - 1 else r },
       [Ev.ins (0x80 |||
          ((byteOfInt c +
            (if s.cols = 16 then [0x00, 0x40, 0x10, 0x50] else [0x00, 0x40, 0x14, 0x54]).getD
              (if (if r ≥ s.rows then s.rows - 1 else r) > 3 then (3 : Int)
               else if r ≥ s.rows then s.rows - 1 else r).toNat 0) % 256))],
       1, if o 0 then Res.ok else Res.err⟩ ∧
    lcdRowOffset 16 0 = some 0x00 ∧ lcdRowOffset 16 1 = some 0x40 ∧
    lcdRowOffset 16 2 = some 0x10 ∧ lcdRowOffset 16 3 = some 0x50 ∧
    lcdRowOffset 16 9 = some 0x50 ∧
    lcdRowOffset 20 0 = some 0x00 ∧ lcdRowOffset 20 1 = some 0x40 ∧
    lcdRowOffset 20 2 = some 0x14 ∧ lcdRowOffset 20 3 = some 0x54 ∧
    lcdRowOffset 20 9 = some 0x54 := by
  refine ⟨?_, by decide, by decide, by decide, by decide, by decide,
    by decide, by decide, by decide, by decide, by decide⟩
  have hr' : 0 ≤ (if r ≥ s.rows then s.rows - 1 else r) := by split <;> omega
  simp [setCursorRun,
    lcdRowOffset_eq_some s.cols (if r ≥ s.rows then s.rows - 1 else r) hr', emit]

/-- C7 witness: `SetCursor(3, 9)` on a 16×2 display clamps to row 1 and
emits `0x80 | (3 + 0x40) = 0xC3`. -/
theorem setCursor_clamps_row_and_addresses_witness :
    setCursorRun 3 9 ⟨0, 0, 0, 0, 0, 16, 2⟩ (fun _ => true) 0
      = ⟨⟨0, 0, 0, 3, 1, 16, 2⟩, [Ev.ins 0xC3], 1, Res.ok⟩ := by
  have h := (setCursor_clamps_row_and_addresses 3 9 ⟨0, 0, 0, 0, 0, 16, 2⟩
    (fun _ => true) (by decide) (by decide)).1
  simpa [byteOfInt] using h

/-! ## C3: `CharacterDisplay.Message` iteration -/

/-- C3: `Message` handles a newline byte by calling `Newline` and never
writing it to the controller (first conjunct, for every input and state);
and `Message "AB\nC"` on a 4-column 2-row left-to-right display (entry
mode `0x02`) starting at (0,0) writes 'A' (65) at (0,0), 'B' (66) at
(1,0), resets to (0,1) on the explicit newline (one set-DDRAM
instruction `0xC0` and nothing else for the `\n` byte), writes 'C' (67)
at (0,1), and finishes at column 1, row 1. -/
theorem message_newline_handling :
    (∀ (bs : List Nat) (s : DispState) (o : Nat → Bool) (i : Nat) (cc rr : Int),
        Ev.chr cc rr 10 ∉ (messageRun bs s o i).evs) ∧
    messageRun [65, 66, 10, 67] ⟨0x02, 0, 0, 0, 0, 4, 2⟩ (fun _ => true) 0 =
      ⟨⟨0x02, 0, 0, 1, 1, 4, 2⟩,
       [Ev.chr 0 0 65, Ev.chr 1 0 66, Ev.ins 0xC0, Ev.chr 0 1 67], 4, Res.ok⟩ :=
  ⟨messageRun_no_newline_char, by decide⟩

/-! ## C8: the in-memory mode-byte invariant -/

/-- The invariant the in-memory mode bytes actually satisfy: each holds
only its mode's feature bits (entry mask `0x03`, display mask `0x07`,
function mask `0x1C`); the fixed "set" flag is *not* part of the stored
byte. -/
def modeInv (s : DispState) : Prop :=
  s.eMode &&& 0x03 = s.eMode ∧ s.dMode &&& 0x07 = s.dMode ∧ s.fMode &&& 0x1C = s.fMode

theorem and_mask_or (x b m : Nat) (hx : x &&& m = x) (hb : b &&& m = b) :
    (x ||| b) &&& m = x ||| b := by
  rw [Nat.and_comm, Nat.and_or_distrib_left, Nat.and_comm m x, Nat.and_comm m b, hx, hb]

theorem and_mask_and (x c m : Nat) (hx : x &&& m = x) :
    (x &&& c) &&& m = x &&& c := by
  rw [Nat.and_assoc, Nat.and_comm c m, ← Nat.and_assoc, hx]

theorem applySetter_modeInv (s : DispState) (m : MS) (h : modeInv s) :
    modeInv (applySetter s m) := by
  obtain ⟨he, hd, hf⟩ := h
  cases m with
  | entryDecrement => exact ⟨and_mask_and _ _ _ he, hd, hf⟩
  | entryIncrement => exact ⟨and_mask_or _ _ _ he (by decide), hd, hf⟩
  | entryShiftOff => exact ⟨and_mask_and _ _ _ he, hd, hf⟩
  | entryShiftOn => exact ⟨and_mask_or _ _ _ he (by decide), hd, hf⟩
  | displayOff => exact ⟨he, and_mask_and _ _ _ hd, hf⟩
  | displayOn => exact ⟨he, and_mask_or _ _ _ hd (by decide), hf⟩
  | cursorOff => exact ⟨he, and_mask_and _ _ _ hd, hf⟩
  | cursorOn => exact ⟨he, and_mask_or _ _ _ hd (by decide), hf⟩
  | blinkOff => exact ⟨he, and_mask_and _ _ _ hd, hf⟩
  | blinkOn => exact ⟨he, and_mask_or _ _ _ hd (by decide), hf⟩
  | fourBitMode => exact ⟨he, hd, and_mask_and _ _ _ hf⟩
  | eightBitMode => exact ⟨he, hd, and_mask_or _ _ _ hf (by decide)⟩
  | oneLine => exact ⟨he, hd, and_mask_and _ _ _ hf⟩
  | twoLine => exact ⟨he, hd, and_mask_or _ _ _ hf (by decide)⟩
  | dots5x8 => exact ⟨he, hd, and_mask_and _ _ _ hf⟩
  | dots5x10 => exact ⟨he, hd, and_mask_or _ _ _ hf (by decide)⟩

theorem applySetters_modeInv (ms : List MS) (s : DispState) (h : modeInv s) :
    modeInv (applySetters s ms) := by
  induction ms generalizing s with
  | nil => exact h
  | cons m rest ih => exact ih _ (applySetter_modeInv s m h)

/-- C8 fails as stated: the in-memory entry-mode byte of a freshly
constructed controller is `0x00`, which is not the OR of the fixed set
flag `0x04` with any combination of entry feature bits — the set flag is
never stored in memory. -/
theorem modeByte_missing_set_flag_counterexample :
    (initModes 16 2).eMode = 0x00 ∧
    ¬ ∃ g : Nat, g &&& 0x03 = g ∧ (initModes 16 2).eMode = 0x04 ||| g := by
  refine ⟨rfl, ?_⟩
  rintro ⟨g, hg, he⟩
  have hle : g &&& 0x03 ≤ 3 := Nat.and_le_right
  have hg3 : g ≤ 3 := by omega
  interval_cases g <;> exact absurd he (by decide)

/-- C8 amended: at all times, each in-memory mode byte is the logical OR
of zero or more of that mode's *feature* bits only (entry ⊆ `0x03`,
display ⊆ `0x07`, function ⊆ `0x1C`); setters mutate the bytes in memory
only, and the fixed set flag (`0x04`/`0x08`/`0x20`) is OR'd in exactly
when a flush emits the hardware mode instructions. -/
theorem modeBytes_feature_invariant (ms : List MS) (cols rows : Int) :
    modeInv (applySetters (initModes cols rows) ms) ∧
    (∀ o : Nat → Bool, (∀ k, k < 3 → o k = true) →
      (setModeRun [] (applySetters (initModes cols rows) ms) o 0).evs =
        [Ev.ins (0x04 ||| (applySetters (initModes cols rows) ms).eMode),
         Ev.ins (0x08 ||| (applySetters (initModes cols rows) ms).dMode),
         Ev.ins (0x20 ||| (applySetters (initModes cols rows) ms).fMode)]) := by
  refine ⟨applySetters_modeInv ms _
    ⟨show (0 : Nat) &&& 0x03 = 0 from by decide,
     show (0 : Nat) &&& 0x07 = 0 from by decide,
     show (0 : Nat) &&& 0x1C = 0 from by decide⟩, ?_⟩
  intro o ho
  rw [setModeRun_allOk [] _ o 0 (ho 0 (by omega)) (ho 1 (by omega)) (ho 2 (by omega))]
  simp [applySetters]

/-! ## C10: the logical row never exceeds the last row -/

/-- The row component of the logical cursor stays within the display. -/
def rowInv (s : DispState) : Prop :=
  0 ≤ s.row ∧ s.row ≤ s.rows - 1

theorem setCursorRun_rowInv (c r : Int) (s : DispState) (o : Nat → Bool) (i : Nat)
    (hr : 0 ≤ r) (hrows : 1 ≤ s.rows) :
    rowInv ((setCursorRun c r s o i).s) ∧ ((setCursorRun c r s o i).s).rows = s.rows := by
  rw [setCursorRun_state]
  refine ⟨⟨?_, ?_⟩, rfl⟩ <;> simp only [] <;> split <;> omega

theorem newlineRun_rowInv (s : DispState) (o : Nat → Bool) (i : Nat)
    (h : rowInv s) (hrows : 1 ≤ s.rows) :
    rowInv ((newlineRun s o i).s) ∧ ((newlineRun s o i).s).rows = s.rows := by
  unfold newlineRun
  exact setCursorRun_rowInv _ _ s o i (by have := h.1; omega) hrows

/-- `Newline` from the last row stays on the last row: the `row+1`
request is clamped. -/
theorem newlineRun_last_row (s : DispState) (o : Nat → Bool) (i : Nat)
    (hlast : s.row = s.rows - 1) : ((newlineRun s o i).s).row = s.rows - 1 := by
  unfold newlineRun
  rw [setCursorRun_state]
  simp only []
  rw [if_pos (by omega)]

theorem homeRun_state (s : DispState) (o : Nat → Bool) (i : Nat) :
    (homeRun s o i).s = { s with col := 0, row := 0 } := rfl

theorem clearRun_rowInv (s : DispState) (o : Nat → Bool) (i : Nat) (hrows : 1 ≤ s.rows) :
    rowInv ((clearRun s o i).s) ∧ ((clearRun s o i).s).rows = s.rows := by
  have hinv0 : rowInv ({ s with col := 0, row := 0 } : DispState) ∧
      ({ s with col := 0, row := 0 } : DispState).rows = s.rows := by
    exact ⟨⟨le_refl 0, by simp only []; omega⟩, rfl⟩
  unfold clearRun
  simp only [emit]
  cases h0 : o i
  · simpa using hinv0
  · have hms := setModeRun_state [] { s with col := 0, row := 0 } o (i + 1)
    cases hres : (setModeRun [] { s with col := 0, row := 0 } o (i + 1)).res <;>
      simp only [hres, Bool.not_true, Bool.false_eq_true, if_false] <;>
      rw [hms] at *
    · by_cases hltr : isLeftToRight (applySetters { s with col := 0, row := 0 } []) = true
      · simp [hltr, applySetters] at *
        exact hinv0
      · have hltr' : isLeftToRight (applySetters { s with col := 0, row := 0 } []) = false := by
          simpa using hltr
        simp only [hltr', Bool.not_false, if_true, applySetters, List.foldl] at *
        have := setCursorRun_rowInv (({ s with col := 0, row := 0 } : DispState).cols - 1) 0
          ({ s with col := 0, row := 0 } : DispState) o
          ((setModeRun [] { s with col := 0, row := 0 } o (i + 1)).idx)
          (le_refl 0) (by simp only []; omega)
        simpa [applySetters] using this
    · simpa [applySetters] using hinv0
    · simpa [applySetters] using hinv0

theorem messageRun_rowInv (bs : List Nat) :
    ∀ (s : DispState) (o : Nat → Bool) (i : Nat), 1 ≤ s.rows → rowInv s →
      rowInv ((messageRun bs s o i).s) ∧ ((messageRun bs s o i).s).rows = s.rows := by
  induction bs with
  | nil => intro s o i h1 h2; exact ⟨h2, rfl⟩
  | cons b rest ih =>
    intro s o i h1 h2
    unfold messageRun
    by_cases hb : b = 10
    · subst hb
      have hn := newlineRun_rowInv s o i h2 h1
      cases hres : (newlineRun s o i).res <;> simp only [if_pos rfl, hres, if_true]
      · have hrec := ih ((newlineRun s o i).s) o ((newlineRun s o i).idx)
          (by rw [hn.2]; exact h1) hn.1
        exact ⟨hrec.1, by rw [hrec.2, hn.2]⟩
      · exact hn
      · exact hn
    · simp only [if_neg hb, emit]
      have h2' : rowInv ({ s with col := if isLeftToRight s then s.col + 1 else s.col - 1 }
          : DispState) := h2
      cases hok : o i
      · exact ⟨h2, rfl⟩
      · by_cases hc :
            ({ s with col := if isLeftToRight s then s.col + 1 else s.col - 1 } : DispState).col
              ≥ s.cols ∨
            ({ s with col := if isLeftToRight s then s.col + 1 else s.col - 1 } : DispState).col
              < 0
        · have hn := newlineRun_rowInv
            ({ s with col := if isLeftToRight s then s.col + 1 else s.col - 1 } : DispState)
            o (i + 1) h2' h1
          cases hres : (newlineRun
              { s with col := if isLeftToRight s then s.col + 1 else s.col - 1 }
              o (i + 1)).res <;> simp only [hc, if_true, hres, Bool.not_true,
                Bool.false_eq_true, if_false]
          · have hrec := ih _ o ((newlineRun
                { s with col := if isLeftToRight s then s.col + 1 else s.col - 1 }
                o (i + 1)).idx) (by rw [hn.2]; exact h1) hn.1
            exact ⟨hrec.1, by rw [hrec.2, hn.2]⟩
          · exact hn
          · exact hn
        · have hrec := ih ({ s with col := if isLeftToRight s then s.col + 1 else s.col - 1 }
              : DispState) o (i + 1) h1 h2'
          simp only [hc, if_false, Bool.not_true, Bool.false_eq_true]
          exact hrec

theorem runOps_rowInv (ops : List DispOp) :
    ∀ (s : DispState) (o : Nat → Bool) (i : Nat), 1 ≤ s.rows → rowInv s →
      (∀ op ∈ ops, rowArgOk op) →
      rowInv (runOps ops s o i).1 ∧ (runOps ops s o i).1.rows = s.rows := by
  induction ops with
  | nil => intro s o i h1 h2 _; exact ⟨h2, rfl⟩
  | cons op rest ih =>
    intro s o i h1 h2 hops
    have hstep : rowInv (runOp op s o i).s ∧ (runOp op s o i).s.rows = s.rows := by
      cases op with
      | home => exact ⟨⟨le_refl 0, show (0 : Int) ≤ s.rows - 1 by omega⟩, rfl⟩
      | clear => exact clearRun_rowInv s o i h1
      | newline => exact newlineRun_rowInv s o i h2 h1
      | setCursor c r =>
          exact setCursorRun_rowInv c r s o i (hops _ (List.mem_cons_self _ _)) h1
      | message bs => exact messageRun_rowInv bs s o i h1 h2
    have hrec := ih (runOp op s o i).s o (runOp op s o i).idx
      (by rw [hstep.2]; exact h1) hstep.1
      (fun x hx => hops x (List.mem_cons_of_mem _ hx))
    exact ⟨hrec.1, hrec.2.trans hstep.2⟩

/-- C10: after any sequence of Home, Clear, Newline, SetCursor and
Message operations whose explicit row arguments are non-negative, on a
display with at least one row, the stored logical row stays within
`[0, Rows-1]`; and `Newline` invoked on the last row leaves the cursor on
the last row rather than wrapping or erroring. -/
theorem display_row_invariant (ops : List DispOp) (s : DispState) (o : Nat → Bool)
    (hrows : 1 ≤ s.rows) (hinv : 0 ≤ s.row ∧ s.row ≤ s.rows - 1)
    (hops : ∀ op ∈ ops, rowArgOk op) :
    (0 ≤ (runOps ops s o 0).1.row ∧
     (runOps ops s o 0).1.row ≤ (runOps ops s o 0).1.rows - 1) ∧
    (runOps ops s o 0).1.rows = s.rows ∧
    (s.row = s.rows - 1 → ((newlineRun s o 0).s).row = s.rows - 1) := by
  have h := runOps_rowInv ops s o 0 hrows hinv hops
  exact ⟨h.1, h.2, fun hlast => newlineRun_last_row s o 0 hlast⟩

/-- C10 witness: an out-of-range `SetCursor` row, a wrapping message, and
a `Newline` from the last row on a 4×2 display. -/
theorem display_row_invariant_witness :
    (0 ≤ (runOps [DispOp.setCursor 0 9, DispOp.message [72, 10, 73], DispOp.newline,
        DispOp.clear, DispOp.home] ⟨0x02, 0, 0, 0, 1, 4, 2⟩ (fun _ => true) 0).1.row ∧
     (runOps [DispOp.setCursor 0 9, DispOp.message [72, 10, 73], DispOp.newline,
        DispOp.clear, DispOp.home] ⟨0x02, 0, 0, 0, 1, 4, 2⟩ (fun _ => true) 0).1.row ≤
       (runOps [DispOp.setCursor 0 9, DispOp.message [72, 10, 73], DispOp.newline,
        DispOp.clear, DispOp.home] ⟨0x02, 0, 0, 0, 1, 4, 2⟩ (fun _ => true) 0).1.rows - 1) ∧
    (runOps [DispOp.setCursor 0 9, DispOp.message [72, 10, 73], DispOp.newline,
        DispOp.clear, DispOp.home] ⟨0x02, 0, 0, 0, 1, 4, 2⟩ (fun _ => true) 0).1.rows = 2 ∧
    ((1 : Int) = 2 - 1 →
      ((newlineRun ⟨0x02, 0, 0, 0, 1, 4, 2⟩ (fun _ => true) 0).s).row = 2 - 1) :=
  display_row_invariant [DispOp.setCursor 0 9, DispOp.message [72, 10, 73], DispOp.newline,
      DispOp.clear, DispOp.home] ⟨0x02, 0, 0, 0, 1, 4, 2⟩ (fun _ => true)
    (by decide) (by decide)
    (by intro op hop
        fin_cases hop <;> first | exact (by decide : (0 : Int) ≤ 9) | trivial)

/-- C8 witness: entry-increment followed by blink-on, flushed against an
all-ok transport. -/
theorem modeBytes_feature_invariant_witness :
    modeInv (applySetters (initModes 16 2) [MS.entryIncrement, MS.blinkOn]) ∧
    (setModeRun [] (applySetters (initModes 16 2) [MS.entryIncrement, MS.blinkOn])
        (fun _ => true) 0).evs =
      [Ev.ins (0x04 ||| (applySetters (initModes 16 2) [MS.entryIncrement, MS.blinkOn]).eMode),
       Ev.ins (0x08 ||| (applySetters (initModes 16 2) [MS.entryIncrement, MS.blinkOn]).dMode),
       Ev.ins (0x20 ||| (applySetters (initModes 16 2) [MS.entryIncrement, MS.blinkOn]).fMode)] :=
  ⟨(modeBytes_feature_invariant [MS.entryIncrement, MS.blinkOn] 16 2).1,
   (modeBytes_feature_invariant [MS.entryIncrement, MS.blinkOn] 16 2).2
     (fun _ => true) (fun _ _ => rfl)⟩

end Embd
